import Mathlib

/-!
Verification of the `minecraft_world` persistence layer: the coordinate
address codec (`src/backend/luanti/map.rs`), the versioned block codec
(`src/backend/luanti/block_serialization/`), the SQLite block store
(`src/backend/luanti/map.rs`) and the auth record reconciler
(`src/backend/luanti/auth.rs`).

Rust machine integers are modelled as `Int` (the source arithmetic never
overflows `i64` in the relevant ranges; where a fallible narrowing
conversion such as `i16::try_from` appears, it is modelled explicitly with
`Option`, `none` standing for the `unwrap` panic).  Rust's `/` on signed
integers truncates towards zero, which is `Int.tdiv`.
-/

namespace MCWorld

/-! ## Error types (`src/types.rs`, `src/world.rs`) -/

/-- `CoordinateError` from `src/types.rs`. -/
inductive CoordinateError where
  | OutOfBounds
  | InvalidFrame
  deriving DecidableEq, Repr

/-- `SpatialCoordinate` from `src/types.rs` (scalar type `i32`). -/
structure SpatialCoordinate where
  x : Int
  y : Int
  z : Int
  deriving DecidableEq, Repr

/-- `WorldError` from `src/world.rs`. -/
inductive WorldError where
  | IdNotFound (id : Int)
  | NameNotFound (name : String)
  | FileNotFound (msg : String)
  | OutOfBounds (c : SpatialCoordinate)
  | PartitionNotFound (c : SpatialCoordinate)
  | CorruptData (msg : String)
  | DatabaseError (msg : String)
  | UnknownError (msg : String)
  deriving DecidableEq, Repr

/-! ## Address codec (`src/backend/luanti/map.rs`, `HashedCoordinate`) -/

/-- Rust `i16::try_from` on an `i64` value: succeeds exactly on values
representable in `i16`; `none` models the `Err` case (whose `unwrap` in the
source panics). -/
def i16TryFrom (n : Int) : Option Int :=
  if -32768 ≤ n ∧ n ≤ 32767 then some n else none

/-- `HashedCoordinate` (map.rs line 67): a single `i64` packing a 3D
coordinate. -/
structure HashedCoordinate where
  value : Int
  deriving DecidableEq, Repr

namespace HashedCoordinate

/-- `LIMIT_MIN` constant (map.rs line 72). -/
def LIMIT_MIN : Int := -30920

/-- `LIMIT_MAX` constant (map.rs line 73). -/
def LIMIT_MAX : Int := 30920

/-- `HashedCoordinate::at` (map.rs lines 77-93): AABB bounds check, then
pack `x * 16777216 + y * 4096 + z` into one `i64`.  Inputs are `i16`
values; the packed arithmetic cannot overflow `i64`, so plain `Int`
arithmetic is exact.  (`at` is a Lean keyword, hence the primed name.) -/
def at' (x y z : Int) : Except CoordinateError HashedCoordinate :=
  if x < LIMIT_MIN || x > LIMIT_MAX
      || y < LIMIT_MIN || y > LIMIT_MAX
      || z < LIMIT_MIN || z > LIMIT_MAX then
    Except.error CoordinateError.OutOfBounds
  else
    Except.ok { value := x * 16777216 + y * 4096 + z }

/-- Decode accessor `x()` (map.rs lines 99-101):
`i16::try_from(self.value / 16777216).unwrap()`.  `none` models the panic
of `unwrap` on an unrepresentable value. -/
def x (c : HashedCoordinate) : Option Int :=
  i16TryFrom (c.value.tdiv 16777216)

/-- Decode accessor `y()` (map.rs lines 103-105):
`i16::try_from(self.value / 4096).unwrap()`. -/
def y (c : HashedCoordinate) : Option Int :=
  i16TryFrom (c.value.tdiv 4096)

/-- Decode accessor `z()` (map.rs lines 107-109):
`i16::try_from(self.value).unwrap()`. -/
def z (c : HashedCoordinate) : Option Int :=
  i16TryFrom c.value

end HashedCoordinate

/-- `<SpatialCoordinate as Coordinate>::from(coord)` applied to a
`HashedCoordinate` (types.rs lines 122-131): converts each decoded axis
(`i32::from` of the `i16` accessor value, always exact).  `none` propagates
a panic from the decode accessors. -/
def SpatialCoordinate.fromHashed (c : HashedCoordinate) : Option SpatialCoordinate :=
  match c.x, c.y, c.z with
  | some a, some b, some d => some { x := a, y := b, z := d }
  | _, _, _ => none

/-! ## Block codec (`src/backend/luanti/block_serialization/`) -/

/-- `LightBank` (mod.rs lines 6-9). -/
inductive LightBank where
  | Day
  | Night
  deriving DecidableEq, Repr

/-- `MapBlock29` (v29.rs lines 7-9): the 13 header bytes.  The `[u8; 13]`
array is modelled as a `List Nat` of length 13 produced by the
deserializer. -/
structure MapBlock29 where
  header_bytes : List Nat
  deriving DecidableEq, Repr

namespace MapBlock29

/-- `MapBlock29::deserialize` (v29.rs lines 12-16):
`data[0..13].try_into().unwrap()`.  Slicing a `&[u8]` shorter than 13
bytes panics in Rust; `none` models that panic. -/
def deserialize (data : List Nat) : Option MapBlock29 :=
  if 13 ≤ data.length then some { header_bytes := data.take 13 } else none

/-- `underground()` (v29.rs lines 24-27): byte 2, `0x01` flag. -/
def underground (b : MapBlock29) : Bool :=
  (b.header_bytes.getD 2 0) &&& 0x01 != 0

/-- `day_night_differs()` (v29.rs lines 29-32): byte 2, `0x02` flag. -/
def day_night_differs (b : MapBlock29) : Bool :=
  (b.header_bytes.getD 2 0) &&& 0x02 != 0

/-- `light_dirty()` (v29.rs lines 34-37): byte 2, `0x04` flag. -/
def light_dirty (b : MapBlock29) : Bool :=
  (b.header_bytes.getD 2 0) &&& 0x04 != 0

/-- `was_generated()` (v29.rs lines 39-42): byte 2, `0x08` flag. -/
def was_generated (b : MapBlock29) : Bool :=
  (b.header_bytes.getD 2 0) &&& 0x08 != 0

/-- `light_complete` (v29.rs lines 44-46): always `false`. -/
def light_complete (_b : MapBlock29) (_bank : LightBank) (_direction : SpatialCoordinate) : Bool :=
  false

/-- `timestamp` (v29.rs lines 48-50): always `0`. -/
def timestamp (_b : MapBlock29) : Nat :=
  0

end MapBlock29

/-- Outcome of `deserialize_block_data`: `ok` for a decoded v29 block,
`unsupportedVersion` for the `Err(())` branch on an unknown version byte,
`panicked` for the Rust panics on out-of-range indexing/slicing. -/
inductive BlockDecodeResult where
  | ok (b : MapBlock29)
  | unsupportedVersion
  | panicked
  deriving DecidableEq, Repr

/-- Whether the decode produced a block. -/
def BlockDecodeResult.isOk : BlockDecodeResult → Bool
  | .ok _ => true
  | _ => false

/-- `deserialize_block_data` (mod.rs lines 25-30): `data[0]` (panics on an
empty payload), dispatch on the version byte, v29 decodes `&data[1..]`
(which panics inside `MapBlock29::deserialize` when fewer than 13 bytes
remain). -/
def deserialize_block_data (data : List Nat) : BlockDecodeResult :=
  match data.head? with
  | none => BlockDecodeResult.panicked
  | some 29 =>
    match MapBlock29.deserialize data.tail with
    | some b => BlockDecodeResult.ok b
    | none => BlockDecodeResult.panicked
  | some _ => BlockDecodeResult.unsupportedVersion

/-! ## Block store (`src/backend/luanti/map.rs`, `SQLite3MapReader`)

The SQLite table `blocks (pos INT NOT NULL PRIMARY KEY, data BLOB)` is
modelled as a list of `(pos, data)` rows; the primary key means at most
one row per `pos` in any state reachable through the store operations. -/

/-- The `blocks` table backing a `SQLite3MapReader`. -/
structure BlocksDb where
  rows : List (Int × List Nat)
  deriving DecidableEq, Repr

namespace SQLite3MapReader

/-- `block_exists` (map.rs lines 247-257): `SELECT COUNT(*) ... WHERE pos = ?`,
true iff the count is positive. -/
def block_exists (db : BlocksDb) (coord : HashedCoordinate) : Bool :=
  db.rows.any (fun r => r.1 == coord.value)

/-- `blocks` (map.rs lines 259-278): `SELECT pos FROM blocks`, every stored
position. -/
def blocks (db : BlocksDb) : List HashedCoordinate :=
  db.rows.map (fun r => { value := r.1 })

/-- `get_block` (map.rs lines 280-301): `SELECT data ... WHERE pos = ?`; on a
missing row it builds `PartitionNotFound` from
`SpatialCoordinate::from(coord).unwrap()`, whose decode accessors can
panic (`none`). -/
def get_block (db : BlocksDb) (coord : HashedCoordinate) :
    Option (Except WorldError (List Nat)) :=
  match db.rows.find? (fun r => r.1 == coord.value) with
  | some r => some (Except.ok r.2)
  | none =>
    match SpatialCoordinate.fromHashed coord with
    | some c => some (Except.error (WorldError.PartitionNotFound c))
    | none => none

/-- `set_block` (map.rs lines 305-314): plain `INSERT INTO blocks`; a
duplicate primary key makes the statement fail, surfaced as
`DatabaseError("Failed to insert block")`. -/
def set_block (db : BlocksDb) (coord : HashedCoordinate) (data : List Nat) :
    Except WorldError BlocksDb :=
  if db.rows.any (fun r => r.1 == coord.value) then
    Except.error (WorldError.DatabaseError "Failed to insert block")
  else
    Except.ok { rows := db.rows ++ [(coord.value, data)] }

/-- `remove_block` (map.rs lines 316-325): `DELETE FROM blocks WHERE pos = ?`. -/
def remove_block (db : BlocksDb) (coord : HashedCoordinate) : BlocksDb :=
  { rows := db.rows.filter (fun r => !(r.1 == coord.value)) }

end SQLite3MapReader

/-! ## Auth record reconciler (`src/backend/luanti/auth.rs`, `AuthSqlBackend`)

Backing schema: `auth (id INTEGER PRIMARY KEY AUTOINCREMENT, name UNIQUE,
password, last_login)` and `user_privileges (id, privilege, PRIMARY KEY
(id, privilege), FOREIGN KEY id -> auth(id) ON DELETE CASCADE)`.  The two
tables are modelled as row lists.  `last_insert_rowid` of an
`AUTOINCREMENT` insert is modelled as one more than the largest id in the
table (fresh against every stored id, which is all the algorithm needs).
The source's `HashMap` id/name tables are modelled as association lists
with first-match lookup; under the schema's `UNIQUE name` / `PRIMARY KEY
id` the key sets are duplicate-free, so insertion-order collision
behaviour never comes into play. -/

/-- `AuthSqlBackendUser` (auth.rs lines 155-161). -/
structure AuthSqlBackendUser where
  name : String
  password : String
  last_login : Int
  privileges : List String
  deriving DecidableEq, Repr

/-- One row of the `auth` table. -/
structure AuthRow where
  id : Int
  name : String
  password : String
  last_login : Int
  deriving DecidableEq, Repr

/-- The two tables behind an `AuthSqlBackend` connection. -/
structure AuthDb where
  auth : List AuthRow
  privs : List (Int × String)
  deriving DecidableEq, Repr

/-- First-match association-list lookup (models `HashMap::get`). -/
def assocFind {α β : Type} [BEq α] (t : List (α × β)) (k : α) : Option β :=
  (t.find? (fun p => p.1 == k)).map (fun p => p.2)

namespace AuthSqlBackend

/-- `id_table` built from `SELECT id, name FROM auth` (auth.rs lines 244-250). -/
def idTableOf (auth : List AuthRow) : List (String × Int) :=
  auth.map (fun r => (r.name, r.id))

/-- `name_table`, the inverse map (auth.rs lines 252-255). -/
def nameTableOf (auth : List AuthRow) : List (Int × String) :=
  auth.map (fun r => (r.id, r.name))

/-- One `UPDATE auth SET name = ?, password = ?, last_login = ? WHERE id = ?`
(auth.rs line 258). -/
def applyUpdate (a : List AuthRow) (n pw : String) (ll i : Int) : List AuthRow :=
  a.map (fun r =>
    if r.id == i then { id := r.id, name := n, password := pw, last_login := ll } else r)

/-- The update loop (auth.rs lines 257-263): the users whose name already has
an id, paired with that id. -/
def updList (auth : List AuthRow) (users : List AuthSqlBackendUser) :
    List (AuthSqlBackendUser × Int) :=
  users.filterMap (fun u => (assocFind (idTableOf auth) u.name).map (fun i => (u, i)))

/-- Applies the whole update loop. -/
def applyUpdates (a : List AuthRow) (l : List (AuthSqlBackendUser × Int)) : List AuthRow :=
  l.foldl (fun a ui => applyUpdate a ui.1.name ui.1.password ui.1.last_login ui.2) a

/-- The id generated by an `AUTOINCREMENT` insert, as observed through
`last_insert_rowid` (auth.rs line 270). -/
def freshId (auth : List AuthRow) : Int :=
  (auth.foldl (fun m r => max m r.id) 0) + 1

/-- The insert loop (auth.rs lines 265-272): every user whose name is not yet
in `id_table` is appended to `auth` with a generated id, and `id_table`
learns the new `(name, id)` pair.  Returns the resulting table, the grown
`id_table`, and the list of users actually inserted. -/
def runInserts (users : List AuthSqlBackendUser) (auth : List AuthRow)
    (idt : List (String × Int)) :
    List AuthRow × List (String × Int) × List AuthSqlBackendUser :=
  match users with
  | [] => (auth, idt, [])
  | u :: rest =>
    if (assocFind idt u.name).isSome then
      runInserts rest auth idt
    else
      let i := freshId auth
      let res := runInserts rest
        (auth ++ [{ id := i, name := u.name, password := u.password, last_login := u.last_login }])
        ((u.name, i) :: idt)
      (res.1, res.2.1, u :: res.2.2)

/-- `to_remove` of the privilege-deletion step (auth.rs lines 285-303): every
stored `(id, privilege)` pair whose id resolves to a name in `name_table`,
whose name matches an in-memory user, and which that user's privilege set
no longer contains. -/
def privToRemove (privs : List (Int × String)) (nameT : List (Int × String))
    (users : List AuthSqlBackendUser) : List (Int × String) :=
  privs.filter (fun pr =>
    match assocFind nameT pr.1 with
    | some n =>
      match users.find? (fun u => u.name == n) with
      | some u => !(u.privileges.contains pr.2)
      | none => false
    | none => false)

/-- The privilege-insertion loop (auth.rs lines 323-332): for each user with
an id, each of its privilege strings not contained in the
`existing_privileges` snapshot becomes an inserted `(id, privilege)` pair. -/
def privInsertions (users : List AuthSqlBackendUser) (idt : List (String × Int))
    (existing : List String) : List (Int × String) :=
  match users with
  | [] => []
  | u :: rest =>
    (match assocFind idt u.name with
     | some i => (u.privileges.filter (fun p => !(existing.contains p))).map (fun p => (i, p))
     | none => []) ++ privInsertions rest idt existing

/-- `auth` after the update loop. -/
def saveAuthAfterUpdates (db : AuthDb) (users : List AuthSqlBackendUser) : List AuthRow :=
  applyUpdates db.auth (updList db.auth users)

/-- `auth` after the insert loop. -/
def saveAuth2 (db : AuthDb) (users : List AuthSqlBackendUser) : List AuthRow :=
  (runInserts users (saveAuthAfterUpdates db users) (idTableOf db.auth)).1

/-- `id_table` after the insert loop. -/
def saveIdTable1 (db : AuthDb) (users : List AuthSqlBackendUser) : List (String × Int) :=
  (runInserts users (saveAuthAfterUpdates db users) (idTableOf db.auth)).2.1

/-- The users inserted by the insert loop. -/
def saveNewUsers (db : AuthDb) (users : List AuthSqlBackendUser) : List AuthSqlBackendUser :=
  (runInserts users (saveAuthAfterUpdates db users) (idTableOf db.auth)).2.2

/-- The privilege pairs deleted by `save` (auth.rs lines 287-309). -/
def savePrivRemovals (db : AuthDb) (users : List AuthSqlBackendUser) : List (Int × String) :=
  privToRemove db.privs (nameTableOf db.auth) users

/-- `user_privileges` after the deletion loop. -/
def savePrivs1 (db : AuthDb) (users : List AuthSqlBackendUser) : List (Int × String) :=
  db.privs.filter (fun pr => !((savePrivRemovals db users).contains pr))

/-- `existing_privileges`: `SELECT DISTINCT privilege FROM user_privileges`
taken after the deletions, before any insertion (auth.rs lines 311-321). -/
def savePrivSnapshot (db : AuthDb) (users : List AuthSqlBackendUser) : List String :=
  ((savePrivs1 db users).map (fun pr => pr.2)).dedup

/-- The privilege pairs inserted by `save` (auth.rs lines 323-332). -/
def savePrivInsertions (db : AuthDb) (users : List AuthSqlBackendUser) : List (Int × String) :=
  privInsertions users (saveIdTable1 db users) (savePrivSnapshot db users)

/-- `user_privileges` after the insertion loop. -/
def savePrivs2 (db : AuthDb) (users : List AuthSqlBackendUser) : List (Int × String) :=
  savePrivs1 db users ++ savePrivInsertions db users

/-- `to_remove` of the cleanup step (auth.rs lines 336-362): ids of auth rows
whose name no longer matches any in-memory user. -/
def saveRmIds (db : AuthDb) (users : List AuthSqlBackendUser) : List Int :=
  ((saveAuth2 db users).filter (fun r => !(users.any (fun u => u.name == r.name)))).map
    (fun r => r.id)

/-- The tables produced by a successful `save` (auth.rs lines 234-373): update
loop, insert loop, privilege deletions, privilege insertions, then user
cleanup (`DELETE FROM auth WHERE id = ?`, whose `ON DELETE CASCADE` drops
the dead ids' privilege rows). -/
def saveTables (db : AuthDb) (users : List AuthSqlBackendUser) : AuthDb :=
  { auth := (saveAuth2 db users).filter (fun r => !((saveRmIds db users).contains r.id)),
    privs := (savePrivs2 db users).filter (fun pr => !((saveRmIds db users).contains pr.1)) }

/-- The in-memory user `reload` rebuilds for one `auth` row: the row's
columns plus the privilege strings the `JOIN` attaches to its id. -/
def reloadUser (privs : List (Int × String)) (r : AuthRow) : AuthSqlBackendUser :=
  { name := r.name, password := r.password, last_login := r.last_login,
    privileges := (privs.filter (fun pr => pr.1 == r.id)).map (fun pr => pr.2) }

/-- `reload` (auth.rs lines 192-232): all `auth` rows in table order, each
with its joined privileges.  (The source groups join rows into the user
found by name; with `UNIQUE` names that is exactly per-id grouping.) -/
def reload (db : AuthDb) : List AuthSqlBackendUser :=
  db.auth.map (reloadUser db.privs)

/-! ### Transaction model for `save`

`save` wraps every write between one `BEGIN` (auth.rs line 236) and one
`COMMIT` (line 372).  `SqlWrite` is the list of write statements the
algorithm issues; `runTransaction` executes them on a draft copy of the
database.  A failed statement (any of the `.unwrap()`ed `execute` calls)
aborts before `COMMIT`: per SQLite semantics the uncommitted draft is
discarded and the persistent tables keep their pre-`save` contents. -/

/-- One SQL write statement issued inside `save`'s transaction. -/
inductive SqlWrite where
  | updateAuth (name password : String) (last_login id : Int)
  | insertAuth (name password : String) (last_login : Int)
  | deletePriv (id : Int) (privilege : String)
  | insertPriv (id : Int) (privilege : String)
  | deleteAuthRow (id : Int)
  deriving DecidableEq, Repr

/-- The effect of one write statement on the draft tables. -/
def applyWrite (d : AuthDb) : SqlWrite → AuthDb
  | .updateAuth n pw ll i => { d with auth := applyUpdate d.auth n pw ll i }
  | .insertAuth n pw ll =>
    { d with auth := d.auth ++
        [{ id := freshId d.auth, name := n, password := pw, last_login := ll }] }
  | .deletePriv i p => { d with privs := d.privs.filter (fun pr => !(pr.1 == i && pr.2 == p)) }
  | .insertPriv i p => { d with privs := d.privs ++ [(i, p)] }
  | .deleteAuthRow i =>
    { auth := d.auth.filter (fun r => !(r.id == i)),
      privs := d.privs.filter (fun pr => !(pr.1 == i)) }

/-- The ordered write statements `save` issues between `BEGIN` and `COMMIT`. -/
def saveWrites (db : AuthDb) (users : List AuthSqlBackendUser) : List SqlWrite :=
  (updList db.auth users).map
      (fun ui => SqlWrite.updateAuth ui.1.name ui.1.password ui.1.last_login ui.2)
    ++ (saveNewUsers db users).map (fun u => SqlWrite.insertAuth u.name u.password u.last_login)
    ++ (savePrivRemovals db users).map (fun pr => SqlWrite.deletePriv pr.1 pr.2)
    ++ (savePrivInsertions db users).map (fun pr => SqlWrite.insertPriv pr.1 pr.2)
    ++ (saveRmIds db users).map SqlWrite.deleteAuthRow

/-- Executes the transaction body on the draft, failing at write index
`failAt` when given. -/
def runTransactionGo (failAt : Option Nat) :
    AuthDb → List SqlWrite → Nat → Option AuthDb
  | draft, [], _ => some draft
  | draft, w :: rest, step =>
    if failAt = some step then none
    else runTransactionGo failAt (applyWrite draft w) rest (step + 1)

/-- The persistent tables after running `save`'s transaction: the draft when
`COMMIT` is reached, the untouched original tables when a statement fails
before `COMMIT`. -/
def runTransaction (db : AuthDb) (ws : List SqlWrite) (failAt : Option Nat) : AuthDb :=
  match runTransactionGo failAt db ws 0 with
  | some d => d
  | none => db

/-- The schema constraints of the `auth` table: `id` is a primary key and
`name` is `UNIQUE`. -/
def WfAuth (db : AuthDb) : Prop :=
  (db.auth.map AuthRow.id).Nodup ∧ (db.auth.map AuthRow.name).Nodup

instance (db : AuthDb) : Decidable (WfAuth db) := by
  unfold WfAuth; infer_instance

end AuthSqlBackend

/-! ## Helper lemmas -/

/-- A bitmask test `n &&& 2^i != 0` is exactly `Nat.testBit n i`. -/
theorem and_pow_ne_zero (n i : Nat) : (n &&& 2 ^ i != 0) = n.testBit i := by
  rw [Nat.and_two_pow]
  cases h : n.testBit i <;> simp [h, Nat.pos_iff_ne_zero, Nat.pow_eq_zero]

/-- Characterization of a successful block decode. -/
theorem deserialize_block_data_ok {p : List Nat} {b : MapBlock29}
    (h : deserialize_block_data p = BlockDecodeResult.ok b) :
    p.head? = some 29 ∧ 13 ≤ p.tail.length ∧ b.header_bytes = p.tail.take 13 := by
  unfold deserialize_block_data at h
  split at h
  · exact absurd h (by simp)
  · rename_i heq
    unfold MapBlock29.deserialize at h
    split at h
    · rename_i hb
      split at hb
      · rename_i hlen
        cases hb
        cases h
        exact ⟨heq, hlen, rfl⟩
      · exact absurd hb (by simp)
    · exact absurd h (by simp)
  · exact absurd h (by simp)

/-- The converse: a long enough version-29 payload decodes. -/
theorem deserialize_block_data_eq_ok {p : List Nat} (hlen : 14 ≤ p.length)
    (hv : p.head? = some 29) :
    deserialize_block_data p = BlockDecodeResult.ok { header_bytes := p.tail.take 13 } := by
  rcases p with _ | ⟨v, rest⟩
  · simp at hv
  · simp only [List.head?_cons, Option.some.injEq] at hv
    subst hv
    simp only [List.length_cons] at hlen
    have h13 : 13 ≤ rest.length := by omega
    simp [deserialize_block_data, MapBlock29.deserialize, h13]

/-! ## Claim theorems -/

/-- C1: the claimed round trip `decode(encode(c)) == c` fails on the code.
Encoding the in-bounds coordinate `(0, 1, 0)` yields the address `4096`,
and the decode accessors return `(0, 1, 4096)`: `z()` is `4096`, not `0`.
(The accessor divides without masking out the higher axes.) -/
theorem address_roundtrip_fails_at_0_1_0 :
    HashedCoordinate.at' 0 1 0 = Except.ok { value := 4096 } ∧
    HashedCoordinate.x { value := 4096 } = some 0 ∧
    HashedCoordinate.y { value := 4096 } = some 1 ∧
    HashedCoordinate.z { value := 4096 } = some 4096 ∧
    (4096 : Int) ≠ 0 :=
  ⟨rfl, rfl, rfl, rfl, by decide⟩

/-- C2: the packing is not injective over the legal coordinate space: the
distinct in-bounds coordinates `(0, 1, 0)` and `(0, 0, 4096)` both encode
to the address `4096` (the per-axis multiplier `4096` is far too small for
the bound `30920`). -/
theorem address_encoding_collision :
    HashedCoordinate.at' 0 1 0 = HashedCoordinate.at' 0 0 4096 ∧
    HashedCoordinate.at' 0 1 0 = Except.ok { value := 4096 } ∧
    ((0 : Int), (1 : Int), (0 : Int)) ≠ ((0 : Int), (0 : Int), (4096 : Int)) :=
  ⟨rfl, rfl, by decide⟩

/-- C4: a payload shorter than the required 14 bytes (version byte plus
13-byte header) makes the decoder panic (out-of-range index `data[0]` on
the empty payload, out-of-range slice `data[0..13]` otherwise), rather
than return a `CorruptData` error. -/
theorem short_payload_decode_panics :
    deserialize_block_data [] = BlockDecodeResult.panicked ∧
    deserialize_block_data [29] = BlockDecodeResult.panicked ∧
    deserialize_block_data [29, 0, 0, 0, 0, 0, 0, 0, 0, 0, 0, 0, 0] =
      BlockDecodeResult.panicked :=
  ⟨rfl, rfl, rfl⟩

/-- C8: for `i16` inputs, `HashedCoordinate::at` fails with `OutOfBounds`
exactly when some axis lies outside `[-30920, 30920]`, and packs the
coordinate successfully whenever all axes lie within that closed range
(boundary values included). -/
theorem at_bounds_check (x y z : Int)
    (hx : -32768 ≤ x ∧ x ≤ 32767) (hy : -32768 ≤ y ∧ y ≤ 32767)
    (hz : -32768 ≤ z ∧ z ≤ 32767) :
    (HashedCoordinate.at' x y z = Except.error CoordinateError.OutOfBounds ↔
      (x < -30920 ∨ 30920 < x ∨ y < -30920 ∨ 30920 < y ∨ z < -30920 ∨ 30920 < z)) ∧
    ((-30920 ≤ x ∧ x ≤ 30920 ∧ -30920 ≤ y ∧ y ≤ 30920 ∧ -30920 ≤ z ∧ z ≤ 30920) →
      HashedCoordinate.at' x y z = Except.ok { value := x * 16777216 + y * 4096 + z }) := by
  unfold HashedCoordinate.at' HashedCoordinate.LIMIT_MIN HashedCoordinate.LIMIT_MAX
  constructor
  · split
    · rename_i h
      simp only [decide_eq_true_eq, Bool.or_eq_true] at h
      simp only [true_iff]
      omega
    · rename_i h
      simp only [decide_eq_true_eq, Bool.or_eq_true] at h
      constructor
      · intro he
        exact absurd he (by simp)
      · intro hor
        omega
  · intro hin
    split
    · rename_i h
      simp only [decide_eq_true_eq, Bool.or_eq_true] at h
      omega
    · rfl

/-- Witness for C8 at the boundary input `(30920, -30920, 30920)` (succeeds)
and implicitly the failure characterization at that input. -/
theorem at_bounds_check_witness :
    (HashedCoordinate.at' 30920 (-30920) 30920 = Except.error CoordinateError.OutOfBounds ↔
      ((30920 : Int) < -30920 ∨ (30920 : Int) > 30920 ∨ (-30920 : Int) < -30920 ∨
        (30920 : Int) < -30920 ∨ (30920 : Int) < -30920 ∨ (30920 : Int) > 30920)) ∧
    (((-30920 : Int) ≤ 30920 ∧ (30920 : Int) ≤ 30920 ∧ (-30920 : Int) ≤ -30920 ∧
        (-30920 : Int) ≤ 30920 ∧ (-30920 : Int) ≤ 30920 ∧ (30920 : Int) ≤ 30920) →
      HashedCoordinate.at' 30920 (-30920) 30920 =
        Except.ok { value := 30920 * 16777216 + -30920 * 4096 + 30920 }) := by
  have h := at_bounds_check 30920 (-30920) 30920 (by decide) (by decide) (by decide)
  constructor
  · exact h.1
  · exact fun hin => h.2 (by omega)

/-- C9: for every payload decoded as version 29, the four boolean flags are
the low four bits of header byte index 2 (payload byte index 3): bit 0 is
`underground`, bit 1 is `day_night_differs`, bit 2 is `light_dirty`, bit 3
is `was_generated`. -/
theorem v29_flags_are_header_bits (p : List Nat) (b : MapBlock29)
    (h : deserialize_block_data p = BlockDecodeResult.ok b) :
    b.underground = (p.getD 3 0).testBit 0 ∧
    b.day_night_differs = (p.getD 3 0).testBit 1 ∧
    b.light_dirty = (p.getD 3 0).testBit 2 ∧
    b.was_generated = (p.getD 3 0).testBit 3 := by
  obtain ⟨hv, hlen, hb⟩ := deserialize_block_data_ok h
  have hbyte : b.header_bytes.getD 2 0 = p.getD 3 0 := by
    rw [hb]
    rcases p with _ | ⟨v, rest⟩
    · simp at hv
    · simp only [List.tail_cons]
      simp only [List.getD_eq_getElem?_getD, List.getElem?_take, List.getElem?_cons_succ]
      norm_num
  refine ⟨?_, ?_, ?_, ?_⟩ <;>
    simp only [MapBlock29.underground, MapBlock29.day_night_differs,
      MapBlock29.light_dirty, MapBlock29.was_generated, hbyte]
  · have := and_pow_ne_zero (p.getD 3 0) 0
    simpa using this
  · have := and_pow_ne_zero (p.getD 3 0) 1
    simpa using this
  · have := and_pow_ne_zero (p.getD 3 0) 2
    simpa using this
  · have := and_pow_ne_zero (p.getD 3 0) 3
    simpa using this

/-- Witness for C9: the 14-byte payload with header byte index 2 equal to
`0b00000011` decodes to a block with `underground` and `day_night_differs`
set and `light_dirty` and `was_generated` clear. -/
theorem v29_flags_are_header_bits_witness :
    deserialize_block_data [29, 0, 0, 3, 0, 0, 0, 0, 0, 0, 0, 0, 0, 0] =
      BlockDecodeResult.ok { header_bytes := [0, 0, 3, 0, 0, 0, 0, 0, 0, 0, 0, 0, 0] } ∧
    MapBlock29.underground { header_bytes := [0, 0, 3, 0, 0, 0, 0, 0, 0, 0, 0, 0, 0] } = true ∧
    MapBlock29.day_night_differs
      { header_bytes := [0, 0, 3, 0, 0, 0, 0, 0, 0, 0, 0, 0, 0] } = true ∧
    MapBlock29.light_dirty { header_bytes := [0, 0, 3, 0, 0, 0, 0, 0, 0, 0, 0, 0, 0] } = false ∧
    MapBlock29.was_generated
      { header_bytes := [0, 0, 3, 0, 0, 0, 0, 0, 0, 0, 0, 0, 0] } = false := by
  have h := v29_flags_are_header_bits [29, 0, 0, 3, 0, 0, 0, 0, 0, 0, 0, 0, 0, 0]
    { header_bytes := [0, 0, 3, 0, 0, 0, 0, 0, 0, 0, 0, 0, 0] } rfl
  exact ⟨rfl, by rw [h.1]; decide, by rw [h.2.1]; decide, by rw [h.2.2.1]; decide,
    by rw [h.2.2.2]; decide⟩

/-- C10: trailing bytes beyond the 14 consumed ones cannot influence
version-29 decoding: two payloads of length at least 14 that begin with
version byte 29 and agree on their first 14 bytes decode to equal
results (hence equal outputs of every accessor: `underground`,
`day_night_differs`, `light_dirty`, `was_generated`, `light_complete`,
`timestamp`), and both decodes succeed. -/
theorem v29_trailing_bytes_irrelevant (p1 p2 : List Nat) (h14 : 14 ≤ p1.length)
    (hv : p1.getD 0 0 = 29) (hag : p1.take 14 = p2.take 14) :
    deserialize_block_data p1 = deserialize_block_data p2 ∧
    (deserialize_block_data p1).isOk = true := by
  have h14' : 14 ≤ p2.length := by
    have := congrArg List.length hag
    simp only [List.length_take] at this
    omega
  have hv1 : p1.head? = some 29 := by
    rcases p1 with _ | ⟨v, rest⟩
    · simp at h14
    · simpa using hv
  have hv2 : p2.head? = some 29 := by
    have e1 : (p1.take 14).getD 0 0 = p1.getD 0 0 := by
      simp [List.getD_eq_getElem?_getD, List.getElem?_take]
    have e2 : (p2.take 14).getD 0 0 = p2.getD 0 0 := by
      simp [List.getD_eq_getElem?_getD, List.getElem?_take]
    have h0 : p2.getD 0 0 = 29 := by rw [← e2, ← hag, e1]; exact hv
    rcases p2 with _ | ⟨v, rest⟩
    · simp at h14'
    · simpa using h0
  have e1 := deserialize_block_data_eq_ok h14 hv1
  have e2 := deserialize_block_data_eq_ok h14' hv2
  have hhd : p1.tail.take 13 = p2.tail.take 13 := by
    have := congrArg (fun l => (List.drop 1 l).take 13) hag
    simpa [List.drop_take, List.drop_one, List.take_take] using this
  rw [e1, e2, hhd]
  exact ⟨rfl, rfl⟩

/-- Witness for C10: a minimal 14-byte version-29 payload against the same
payload extended by a trailing byte. -/
theorem v29_trailing_bytes_irrelevant_witness :
    deserialize_block_data [29, 0, 0, 3, 0, 0, 0, 0, 0, 0, 0, 0, 0, 0] =
      deserialize_block_data [29, 0, 0, 3, 0, 0, 0, 0, 0, 0, 0, 0, 0, 0, 255] ∧
    (deserialize_block_data [29, 0, 0, 3, 0, 0, 0, 0, 0, 0, 0, 0, 0, 0]).isOk = true :=
  v29_trailing_bytes_irrelevant
    [29, 0, 0, 3, 0, 0, 0, 0, 0, 0, 0, 0, 0, 0]
    [29, 0, 0, 3, 0, 0, 0, 0, 0, 0, 0, 0, 0, 0, 255]
    (by decide) (by decide) (by decide)

/-- C6: the put/get/exists/delete/enumerate postconditions hold except for
the not-found shape of `get`: after `put` then `delete` of the address
encoding `(10, 0, 0)`, `get` does not return `PartitionNotFound` — it
panics, because rebuilding the coordinate runs `i16::try_from(value /
4096).unwrap()` on `40960`, which is out of `i16` range (`none` models the
panic). -/
theorem get_missing_block_panics :
    HashedCoordinate.at' 10 0 0 = Except.ok { value := 167772160 } ∧
    SQLite3MapReader.set_block { rows := [] } { value := 167772160 } [1, 2, 3] =
      Except.ok { rows := [(167772160, [1, 2, 3])] } ∧
    SQLite3MapReader.get_block { rows := [(167772160, [1, 2, 3])] } { value := 167772160 } =
      some (Except.ok [1, 2, 3]) ∧
    SQLite3MapReader.block_exists { rows := [(167772160, [1, 2, 3])] }
      { value := 167772160 } = true ∧
    SQLite3MapReader.blocks { rows := [(167772160, [1, 2, 3])] } = [{ value := 167772160 }] ∧
    SQLite3MapReader.remove_block { rows := [(167772160, [1, 2, 3])] } { value := 167772160 } =
      { rows := [] } ∧
    SQLite3MapReader.block_exists { rows := [] } { value := 167772160 } = false ∧
    SQLite3MapReader.get_block { rows := [] } { value := 167772160 } = none :=
  ⟨rfl, rfl, rfl, rfl, rfl, rfl, rfl, rfl⟩

namespace AuthSqlBackend

/-- A transaction that fails at any write step commits nothing. -/
theorem runTransactionGo_fail (ws : List SqlWrite) :
    ∀ (draft : AuthDb) (step k : Nat), k < ws.length →
      runTransactionGo (some (step + k)) draft ws step = none := by
  induction ws with
  | nil =>
    intro draft step k h
    simp at h
  | cons w rest ih =>
    intro draft step k h
    unfold runTransactionGo
    by_cases hk : k = 0
    · subst hk
      simp
    · have hne : ¬(some (step + k) = some step) := by
        simp only [Option.some.injEq]
        omega
      rw [if_neg hne]
      have hk' : k - 1 < rest.length := by
        simp only [List.length_cons] at h
        omega
      have hs : step + k = (step + 1) + (k - 1) := by omega
      rw [hs]
      exact ih _ (step + 1) (k - 1) hk'

/-- C3: `save` is all-or-nothing: if any of the write statements issued
inside the `BEGIN`/`COMMIT` bracket fails, the transaction never commits,
and the persistent `auth` and `user_privileges` tables are exactly the
tables from before `save` — no partial update, insert or delete survives. -/
theorem save_transaction_atomic (db : AuthDb) (users : List AuthSqlBackendUser) (k : Nat)
    (hk : k < (saveWrites db users).length) :
    runTransaction db (saveWrites db users) (some k) = db := by
  unfold runTransaction
  have h := runTransactionGo_fail (saveWrites db users) db 0 k hk
  rw [Nat.zero_add] at h
  rw [h]

/-- Witness for C3: a failure at the very first write (the insert of user
`"a"` into the empty database) leaves the empty database untouched. -/
theorem save_transaction_atomic_witness :
    runTransaction { auth := [], privs := [] }
      (saveWrites { auth := [], privs := [] }
        [{ name := "a", password := "p", last_login := 0, privileges := ["fly"] }])
      (some 0) = { auth := [], privs := [] } :=
  save_transaction_atomic { auth := [], privs := [] }
    [{ name := "a", password := "p", last_login := 0, privileges := ["fly"] }] 0
    (by decide)

/-- Membership in the privilege-insertion loop's output. -/
theorem privInsertions_mem (users : List AuthSqlBackendUser) (idt : List (String × Int))
    (existing : List String) (i : Int) (p : String) :
    (i, p) ∈ privInsertions users idt existing ↔
      ∃ u ∈ users, assocFind idt u.name = some i ∧ p ∈ u.privileges ∧ ¬p ∈ existing := by
  induction users with
  | nil => simp [privInsertions]
  | cons u rest ih =>
    simp only [privInsertions, List.mem_append, ih, List.mem_cons]
    constructor
    · rintro (hhead | ⟨v, hv, hrest⟩)
      · rcases hfind : assocFind idt u.name with _ | j
        · rw [hfind] at hhead
          simp at hhead
        · rw [hfind] at hhead
          obtain ⟨q, hqmem, hqeq⟩ := List.mem_map.mp hhead
          obtain ⟨hq, hqex⟩ := List.mem_filter.mp hqmem
          have hji : j = i := congrArg Prod.fst hqeq
          have hqp : q = p := congrArg Prod.snd hqeq
          subst hji hqp
          exact ⟨u, Or.inl rfl, hfind, hq, by simpa using hqex⟩
      · exact ⟨v, Or.inr hv, hrest⟩
    · rintro ⟨v, hv | hv, hfind, hp, hex⟩
      · subst hv
        refine Or.inl ?_
        rw [hfind]
        exact List.mem_map.mpr ⟨p, List.mem_filter.mpr ⟨hp, by simpa using hex⟩, rfl⟩
      · exact Or.inr ⟨v, hv, hfind, hp, hex⟩

/-- C5: during `save`, a pair `(id, privilege)` is inserted into
`user_privileges` exactly when some in-memory user resolves (through the
post-insert id table) to that id, carries that privilege, and the
privilege string is absent from the *global* `existing_privileges`
snapshot taken at the start of the insertion step; consequently a
privilege string present anywhere in the snapshot is never inserted, for
any user. -/
theorem save_priv_insertion_global_check (db : AuthDb) (users : List AuthSqlBackendUser)
    (i : Int) (p : String) :
    ((i, p) ∈ savePrivInsertions db users ↔
      ∃ u ∈ users, assocFind (saveIdTable1 db users) u.name = some i ∧
        p ∈ u.privileges ∧ ¬p ∈ savePrivSnapshot db users) ∧
    (p ∈ savePrivSnapshot db users → ¬(i, p) ∈ savePrivInsertions db users) := by
  have h := privInsertions_mem users (saveIdTable1 db users) (savePrivSnapshot db users) i p
  refine ⟨h, fun hp hmem => ?_⟩
  obtain ⟨u, _, _, _, hnot⟩ := h.mp hmem
  exact hnot hp

/-! ### Lemmas towards reconciler idempotence (C7) -/

theorem assocFind_idTableOf (auth : List AuthRow) (n : String) :
    assocFind (idTableOf auth) n = (auth.find? (fun r => r.name == n)).map AuthRow.id := by
  simp only [assocFind, idTableOf, List.find?_map, Option.map_map]
  rfl

theorem assocFind_nameTableOf (auth : List AuthRow) (i : Int) :
    assocFind (nameTableOf auth) i = (auth.find? (fun r => r.id == i)).map AuthRow.name := by
  simp only [assocFind, nameTableOf, List.find?_map, Option.map_map]
  rfl

/-- With duplicate-free keys, `find?` at a member's key returns that member. -/
theorem find?_eq_some_of_nodup_key {α β : Type} [BEq β] [LawfulBEq β] (key : α → β)
    (l : List α) (hnd : (l.map key).Nodup) {r : α} (hr : r ∈ l) :
    l.find? (fun x => key x == key r) = some r := by
  induction l with
  | nil => cases hr
  | cons a t ih =>
    simp only [List.map_cons, List.nodup_cons] at hnd
    rcases List.mem_cons.mp hr with h | h
    · subst h
      exact List.find?_cons_of_pos t (by simp)
    · have hane : ¬(key a == key r) = true := by
        intro hk
        exact hnd.1 (List.mem_map.mpr ⟨r, h, (eq_of_beq hk).symm⟩)
      rw [List.find?_cons_of_neg t hane]
      exact ih hnd.2 h

/-- Two pairs of a fst-nodup list with equal first components are equal. -/
theorem snd_unique_of_fst_nodup {α β : Type} {l : List (α × β)}
    (h : (l.map Prod.fst).Nodup) {a : α} {b1 b2 : β}
    (h1 : (a, b1) ∈ l) (h2 : (a, b2) ∈ l) : b1 = b2 := by
  have := List.inj_on_of_nodup_map h h1 h2 rfl
  exact congrArg Prod.snd this

theorem map_self_of_mem {α : Type} {f : α → α} {l : List α} (h : ∀ x ∈ l, f x = x) :
    l.map f = l := by
  induction l with
  | nil => rfl
  | cons a t ih =>
    simp only [List.map_cons]
    rw [h a (List.mem_cons_self a t), ih (fun x hx => h x (List.mem_cons_of_mem a hx))]

theorem foldl_max_le_init (l : List AuthRow) (b : Int) :
    b ≤ l.foldl (fun m r => max m r.id) b := by
  induction l generalizing b with
  | nil => simp
  | cons a t ih => exact le_trans (le_max_left b a.id) (ih (max b a.id))

theorem mem_le_foldl_max (l : List AuthRow) (b : Int) {r : AuthRow} (hr : r ∈ l) :
    r.id ≤ l.foldl (fun m r => max m r.id) b := by
  induction l generalizing b with
  | nil => cases hr
  | cons a t ih =>
    rcases List.mem_cons.mp hr with h | h
    · subst h
      exact le_trans (le_max_right b r.id) (foldl_max_le_init t _)
    · exact ih _ h

/-- The generated id is strictly larger than every stored id. -/
theorem freshId_gt (auth : List AuthRow) {r : AuthRow} (hr : r ∈ auth) :
    r.id < freshId auth := by
  unfold freshId
  exact lt_of_le_of_lt (mem_le_foldl_max auth 0 hr) (lt_add_one _)

theorem filterMap_eq_map_of_some {α β : Type} {f : α → Option β} {g : α → β} {l : List α}
    (h : ∀ x ∈ l, f x = some (g x)) : l.filterMap f = l.map g := by
  induction l with
  | nil => rfl
  | cons a t ih =>
    rw [List.filterMap_cons, h a (List.mem_cons_self a t), List.map_cons,
      ih (fun x hx => h x (List.mem_cons_of_mem a hx))]

/-- With `UNIQUE` names, looking up a stored row's name yields its id. -/
theorem idTable_lookup_self {auth : List AuthRow}
    (hname : (auth.map AuthRow.name).Nodup) {r : AuthRow} (hr : r ∈ auth) :
    assocFind (idTableOf auth) r.name = some r.id := by
  rw [assocFind_idTableOf, find?_eq_some_of_nodup_key AuthRow.name auth hname hr]
  rfl

/-- After a reload, the update loop pairs every stored row with its own id. -/
theorem updList_reload (auth : List AuthRow) (privs : List (Int × String))
    (hname : (auth.map AuthRow.name).Nodup) :
    updList auth (auth.map (reloadUser privs)) =
      auth.map (fun r => (reloadUser privs r, r.id)) := by
  unfold updList
  rw [List.filterMap_map]
  apply filterMap_eq_map_of_some
  intro r hr
  have : assocFind (idTableOf auth) (reloadUser privs r).name = some r.id :=
    idTable_lookup_self hname hr
  simp only [Function.comp_apply, this, Option.map_some']

/-- Updating every row with its own column values is the identity. -/
theorem applyUpdates_self {auth : List AuthRow} (hid : (auth.map AuthRow.id).Nodup)
    (L : List (AuthSqlBackendUser × Int))
    (hL : ∀ p ∈ L, ∃ r ∈ auth, p.1.name = r.name ∧ p.1.password = r.password ∧
      p.1.last_login = r.last_login ∧ p.2 = r.id) :
    applyUpdates auth L = auth := by
  induction L with
  | nil => rfl
  | cons p t ih =>
    obtain ⟨r, hr, hn, hpw, hll, hi⟩ := hL p (List.mem_cons_self p t)
    have hstep : applyUpdate auth p.1.name p.1.password p.1.last_login p.2 = auth := by
      unfold applyUpdate
      apply map_self_of_mem
      intro x hx
      by_cases hxi : x.id == p.2
      · have hxr : x = r := List.inj_on_of_nodup_map hid hx hr (by rw [eq_of_beq hxi, hi])
        subst hxr
        rw [if_pos hxi, hn, hpw, hll]
      · rw [if_neg hxi]
    unfold applyUpdates
    simp only [List.foldl_cons]
    have : applyUpdates auth t = auth := ih (fun q hq => hL q (List.mem_cons_of_mem p hq))
    unfold applyUpdates at this
    rw [hstep, this]

/-- After a reload the update loop leaves the `auth` table unchanged. -/
theorem saveAuthAfterUpdates_reload (auth : List AuthRow) (privs : List (Int × String))
    (hid : (auth.map AuthRow.id).Nodup) (hname : (auth.map AuthRow.name).Nodup) :
    saveAuthAfterUpdates { auth := auth, privs := privs }
      (reload { auth := auth, privs := privs }) = auth := by
  unfold saveAuthAfterUpdates
  have hr : reload { auth := auth, privs := privs } = auth.map (reloadUser privs) := rfl
  rw [hr, updList_reload auth privs hname]
  apply applyUpdates_self hid
  intro p hp
  obtain ⟨r, hrmem, hreq⟩ := List.mem_map.mp hp
  subst hreq
  exact ⟨r, hrmem, rfl, rfl, rfl, rfl⟩

/-- When every user's name already has an id, the insert loop inserts
nothing. -/
theorem runInserts_no_new (users : List AuthSqlBackendUser) (auth : List AuthRow)
    (idt : List (String × Int))
    (h : ∀ u ∈ users, (assocFind idt u.name).isSome = true) :
    runInserts users auth idt = (auth, idt, []) := by
  induction users with
  | nil => rfl
  | cons u t ih =>
    unfold runInserts
    rw [if_pos (h u (List.mem_cons_self u t))]
    exact ih (fun v hv => h v (List.mem_cons_of_mem u hv))

/-- After a reload the privilege-deletion step removes nothing. -/
theorem privToRemove_reload (auth : List AuthRow) (privs : List (Int × String))
    (_hid : (auth.map AuthRow.id).Nodup) (hname : (auth.map AuthRow.name).Nodup) :
    privToRemove privs (nameTableOf auth) (auth.map (reloadUser privs)) = [] := by
  unfold privToRemove
  rw [List.filter_eq_nil_iff]
  intro pr hpr
  rcases hfind : assocFind (nameTableOf auth) pr.1 with _ | n
  · simp [hfind]
  · rw [assocFind_nameTableOf] at hfind
    obtain ⟨r, hfr, hrn⟩ := Option.map_eq_some'.mp hfind
    have hrmem : r ∈ auth := List.mem_of_find?_eq_some hfr
    have hrid : r.id = pr.1 := by
      have h1 := List.find?_some hfr
      simp only [beq_iff_eq] at h1
      exact h1
    have hufind : (auth.map (reloadUser privs)).find? (fun u => u.name == n) =
        some (reloadUser privs r) := by
      rw [List.find?_map]
      have : auth.find? ((fun u => u.name == n) ∘ reloadUser privs) = some r := by
        have hpred : ((fun u => u.name == n) ∘ reloadUser privs) =
            (fun x => x.name == r.name) := by
          funext x
          simp [reloadUser, hrn]
        rw [hpred]
        exact find?_eq_some_of_nodup_key AuthRow.name auth hname hrmem
      rw [this]
      rfl
    have hmem : pr.2 ∈ (reloadUser privs r).privileges := by
      simp only [reloadUser]
      exact List.mem_map.mpr ⟨pr, List.mem_filter.mpr ⟨hpr, by simp [hrid]⟩, rfl⟩
    have hcontains : (reloadUser privs r).privileges.contains pr.2 = true := by
      simpa [List.contains, List.elem_iff] using hmem
    simp [hfind, assocFind_nameTableOf, hfr, hrn, hufind, hcontains, hmem]

/-- When every listed privilege is already in the snapshot, the insertion
loop inserts nothing. -/
theorem privInsertions_eq_nil (users : List AuthSqlBackendUser)
    (idt : List (String × Int)) (existing : List String)
    (h : ∀ u ∈ users, ∀ p ∈ u.privileges, existing.contains p = true) :
    privInsertions users idt existing = [] := by
  induction users with
  | nil => rfl
  | cons u t ih =>
    unfold privInsertions
    have hfilter : u.privileges.filter (fun p => !(existing.contains p)) = [] := by
      rw [List.filter_eq_nil_iff]
      intro p hp
      rw [h u (List.mem_cons_self u t) p hp]
      simp
    rcases hfind : assocFind idt u.name with _ | i <;>
      simp only [hfind, hfilter, ih (fun v hv => h v (List.mem_cons_of_mem u hv)),
        List.map_nil, List.nil_append, List.append_nil]

/-- Saving the user set just loaded by `reload` leaves both tables exactly
as they are (given the schema constraints on `auth`). -/
theorem saveTables_reload (db : AuthDb) (h : WfAuth db) :
    saveTables db (reload db) = db := by
  obtain ⟨auth, privs⟩ := db
  obtain ⟨hid, hname⟩ := h
  replace hid : (List.map AuthRow.id auth).Nodup := hid
  replace hname : (List.map AuthRow.name auth).Nodup := hname
  have hA1 : saveAuthAfterUpdates { auth := auth, privs := privs }
      (reload { auth := auth, privs := privs }) = auth :=
    saveAuthAfterUpdates_reload auth privs hid hname
  have hsome : ∀ u ∈ reload { auth := auth, privs := privs },
      (assocFind (idTableOf auth) u.name).isSome = true := by
    intro u hu
    obtain ⟨r, hr, hreq⟩ := List.mem_map.mp hu
    subst hreq
    show (assocFind (idTableOf auth) r.name).isSome = true
    have hr' : r ∈ auth := hr
    rw [idTable_lookup_self hname hr']
    rfl
  have hrun : runInserts (reload { auth := auth, privs := privs })
      (saveAuthAfterUpdates { auth := auth, privs := privs }
        (reload { auth := auth, privs := privs }))
      (idTableOf auth) = (auth, idTableOf auth, []) := by
    rw [hA1]
    exact runInserts_no_new _ auth (idTableOf auth) hsome
  have hAuth2 : saveAuth2 { auth := auth, privs := privs }
      (reload { auth := auth, privs := privs }) = auth := by
    unfold saveAuth2
    rw [hrun]
  have hIdt1 : saveIdTable1 { auth := auth, privs := privs }
      (reload { auth := auth, privs := privs }) = idTableOf auth := by
    unfold saveIdTable1
    rw [hrun]
  have hRm : savePrivRemovals { auth := auth, privs := privs }
      (reload { auth := auth, privs := privs }) = [] :=
    privToRemove_reload auth privs hid hname
  have hP1 : savePrivs1 { auth := auth, privs := privs }
      (reload { auth := auth, privs := privs }) = privs := by
    unfold savePrivs1
    rw [hRm]
    exact List.filter_eq_self.mpr (fun a _ => rfl)
  have hIns : savePrivInsertions { auth := auth, privs := privs }
      (reload { auth := auth, privs := privs }) = [] := by
    unfold savePrivInsertions
    apply privInsertions_eq_nil
    intro u hu p hp
    obtain ⟨r, hr, hreq⟩ := List.mem_map.mp hu
    subst hreq
    have hmem : p ∈ privs.map (fun pr => pr.2) := by
      obtain ⟨pr, hprmem, hpreq⟩ := List.mem_map.mp hp
      exact List.mem_map.mpr ⟨pr, (List.mem_filter.mp hprmem).1, hpreq⟩
    have hsnap : p ∈ savePrivSnapshot { auth := auth, privs := privs }
        (reload { auth := auth, privs := privs }) := by
      unfold savePrivSnapshot
      rw [hP1]
      exact List.mem_dedup.mpr hmem
    simpa [List.contains, List.elem_iff] using hsnap
  have hP2 : savePrivs2 { auth := auth, privs := privs }
      (reload { auth := auth, privs := privs }) = privs := by
    unfold savePrivs2
    rw [hP1, hIns, List.append_nil]
  have hRmIds : saveRmIds { auth := auth, privs := privs }
      (reload { auth := auth, privs := privs }) = [] := by
    unfold saveRmIds
    rw [hAuth2]
    have : auth.filter
        (fun r => !((reload { auth := auth, privs := privs }).any
          (fun u => u.name == r.name))) = [] := by
      rw [List.filter_eq_nil_iff]
      intro r hr
      have hany : (reload { auth := auth, privs := privs }).any
          (fun u => u.name == r.name) = true :=
        List.any_eq_true.mpr ⟨reloadUser privs r, List.mem_map.mpr ⟨r, hr, rfl⟩, by simp [reloadUser]⟩
      simp [hany]
    rw [this]
    rfl
  show AuthDb.mk _ _ = _
  rw [hAuth2, hP2, hRmIds]
  have e1 : auth.filter (fun r => !(List.contains [] r.id)) = auth :=
    List.filter_eq_self.mpr (fun a _ => rfl)
  have e2 : privs.filter (fun pr => !(List.contains [] pr.1)) = privs :=
    List.filter_eq_self.mpr (fun a _ => rfl)
  rw [e1, e2]

theorem assocFind_cons {α β : Type} [BEq α] (k' : α) (v : β) (t : List (α × β)) (k : α) :
    assocFind ((k', v) :: t) k = if (k' == k) = true then some v else assocFind t k := by
  by_cases h : (k' == k) = true
  · rw [if_pos h]
    unfold assocFind
    rw [@List.find?_cons_of_pos _ (fun q => q.1 == k) (k', v) t h]
    rfl
  · rw [if_neg h]
    unfold assocFind
    rw [@List.find?_cons_of_neg _ (fun q => q.1 == k) (k', v) t h]

/-- Every pair produced by the update loop corresponds to a stored row with
that name and id. -/
theorem mem_updList {auth : List AuthRow} {users : List AuthSqlBackendUser}
    {p : AuthSqlBackendUser × Int} (hp : p ∈ updList auth users) :
    ∃ r0 ∈ auth, r0.name = p.1.name ∧ r0.id = p.2 := by
  unfold updList at hp
  obtain ⟨u, _hu, hf⟩ := List.mem_filterMap.mp hp
  obtain ⟨i, hfind, heq⟩ := Option.map_eq_some'.mp hf
  rw [assocFind_idTableOf] at hfind
  obtain ⟨r0, hfr, hgood⟩ := Option.map_eq_some'.mp hfind
  have hr0mem := List.mem_of_find?_eq_some hfr
  have hr0name : r0.name = u.name := by
    have h1 := List.find?_some hfr
    simpa [beq_iff_eq] using h1
  subst heq
  exact ⟨r0, hr0mem, hr0name, hgood⟩

/-- The update loop preserves the list of `(id, name)` column pairs. -/
theorem applyUpdates_pairs (auth0 : List AuthRow) (hid : (auth0.map AuthRow.id).Nodup)
    (L : List (AuthSqlBackendUser × Int))
    (hL : ∀ p ∈ L, ∃ r0 ∈ auth0, r0.name = p.1.name ∧ r0.id = p.2) :
    ∀ a, a.map (fun r => (r.id, r.name)) = auth0.map (fun r => (r.id, r.name)) →
      (applyUpdates a L).map (fun r => (r.id, r.name)) =
        auth0.map (fun r => (r.id, r.name)) := by
  have hfst : (auth0.map (fun r => (r.id, r.name))).map Prod.fst = auth0.map AuthRow.id := by
    rw [List.map_map]
    rfl
  induction L with
  | nil => exact fun a ha => ha
  | cons p t ih =>
    intro a ha
    obtain ⟨r0, hr0, hr0n, hr0i⟩ := hL p (List.mem_cons_self p t)
    have hstep : (applyUpdate a p.1.name p.1.password p.1.last_login p.2).map
        (fun r => (r.id, r.name)) = auth0.map (fun r => (r.id, r.name)) := by
      unfold applyUpdate
      rw [List.map_map]
      rw [← ha]
      apply List.map_congr_left
      intro x hx
      simp only [Function.comp_apply]
      by_cases hxi : (x.id == p.2) = true
      · rw [if_pos hxi]
        have hxid : x.id = p.2 := eq_of_beq hxi
        have hx0 : (x.id, x.name) ∈ auth0.map (fun r => (r.id, r.name)) := by
          rw [← ha]
          exact List.mem_map.mpr ⟨x, hx, rfl⟩
        have hr0p : (x.id, p.1.name) ∈ auth0.map (fun r => (r.id, r.name)) := by
          refine List.mem_map.mpr ⟨r0, hr0, ?_⟩
          rw [hr0n, hr0i, hxid]
        have hnd : ((auth0.map (fun r => (r.id, r.name))).map Prod.fst).Nodup := by
          rw [hfst]
          exact hid
        have : x.name = p.1.name := snd_unique_of_fst_nodup hnd hx0 hr0p
        rw [← this]
      · rw [if_neg hxi]
    unfold applyUpdates
    simp only [List.foldl_cons]
    have := ih (fun q hq => hL q (List.mem_cons_of_mem p hq))
      (applyUpdate a p.1.name p.1.password p.1.last_login p.2) hstep
    unfold applyUpdates at this
    exact this

/-- The update loop preserves the id column. -/
theorem saveAuthAfterUpdates_ids (db : AuthDb) (users : List AuthSqlBackendUser)
    (hid : (db.auth.map AuthRow.id).Nodup) :
    (saveAuthAfterUpdates db users).map AuthRow.id = db.auth.map AuthRow.id := by
  have hp := applyUpdates_pairs db.auth hid (updList db.auth users)
    (fun p hp => mem_updList hp) db.auth rfl
  have := congrArg (List.map Prod.fst) hp
  simpa [List.map_map, Function.comp] using this

/-- The update loop preserves the name column. -/
theorem saveAuthAfterUpdates_names (db : AuthDb) (users : List AuthSqlBackendUser)
    (hid : (db.auth.map AuthRow.id).Nodup) :
    (saveAuthAfterUpdates db users).map AuthRow.name = db.auth.map AuthRow.name := by
  have hp := applyUpdates_pairs db.auth hid (updList db.auth users)
    (fun p hp => mem_updList hp) db.auth rfl
  have := congrArg (List.map Prod.snd) hp
  simpa [List.map_map, Function.comp] using this

/-- The insert loop keeps both key columns duplicate-free, provided the id
table's keys cover the stored names. -/
theorem runInserts_wf (users : List AuthSqlBackendUser) :
    ∀ (auth : List AuthRow) (idt : List (String × Int)),
      (auth.map AuthRow.id).Nodup → (auth.map AuthRow.name).Nodup →
      (∀ r ∈ auth, (assocFind idt r.name).isSome = true) →
      ((runInserts users auth idt).1.map AuthRow.id).Nodup ∧
        ((runInserts users auth idt).1.map AuthRow.name).Nodup := by
  induction users with
  | nil => exact fun auth idt h1 h2 _ => ⟨h1, h2⟩
  | cons u t ih =>
    intro auth idt h1 h2 h3
    unfold runInserts
    by_cases hs : ((assocFind idt u.name).isSome) = true
    · rw [if_pos hs]
      exact ih auth idt h1 h2 h3
    · rw [if_neg hs]
      dsimp only
      apply ih
      · rw [List.map_append]
        rw [List.nodup_append]
        refine ⟨h1, List.nodup_singleton _, ?_⟩
        intro a ha hb
        simp only [List.map_cons, List.map_nil, List.mem_singleton] at hb
        obtain ⟨r, hr, he⟩ := List.mem_map.mp ha
        have := freshId_gt auth hr
        omega
      · rw [List.map_append]
        rw [List.nodup_append]
        refine ⟨h2, List.nodup_singleton _, ?_⟩
        intro a ha hb
        simp only [List.map_cons, List.map_nil, List.mem_singleton] at hb
        subst hb
        obtain ⟨r, hr, he⟩ := List.mem_map.mp ha
        have := h3 r hr
        rw [he] at this
        rw [this] at hs
        exact hs rfl
      · intro r hr
        rcases List.mem_append.mp hr with hmem | hmem
        · rw [assocFind_cons]
          by_cases hk : (u.name == r.name) = true
          · rw [if_pos hk]
            rfl
          · rw [if_neg hk]
            exact h3 r hmem
        · simp only [List.mem_singleton] at hmem
          subst hmem
          rw [assocFind_cons]
          simp

/-- `save` preserves the schema constraints on `auth`. -/
theorem wf_saveTables (db : AuthDb) (users : List AuthSqlBackendUser) (h : WfAuth db) :
    WfAuth (saveTables db users) := by
  obtain ⟨hid, hname⟩ := h
  have hupdid := saveAuthAfterUpdates_ids db users hid
  have hupdname := saveAuthAfterUpdates_names db users hid
  have h3 : ∀ r ∈ saveAuthAfterUpdates db users,
      (assocFind (idTableOf db.auth) r.name).isSome = true := by
    intro r hr
    have hmemname : r.name ∈ db.auth.map AuthRow.name := by
      rw [← hupdname]
      exact List.mem_map.mpr ⟨r, hr, rfl⟩
    obtain ⟨r0, hr0, he⟩ := List.mem_map.mp hmemname
    rw [assocFind_idTableOf]
    have hf : (db.auth.find? (fun x => x.name == r.name)).isSome = true :=
      List.find?_isSome.mpr ⟨r0, hr0, by simp [he]⟩
    rcases ho : db.auth.find? (fun x => x.name == r.name) with _ | v
    · rw [ho] at hf
      exact absurd hf (by simp)
    · rw [ho]
      rfl
  have hwf2 := runInserts_wf users (saveAuthAfterUpdates db users) (idTableOf db.auth)
    (by rw [hupdid]; exact hid) (by rw [hupdname]; exact hname) h3
  have hsub : ((saveTables db users).auth.map AuthRow.id).Sublist
      ((saveAuth2 db users).map AuthRow.id) := by
    exact List.Sublist.map AuthRow.id (List.filter_sublist _)
  have hsubn : ((saveTables db users).auth.map AuthRow.name).Sublist
      ((saveAuth2 db users).map AuthRow.name) := by
    exact List.Sublist.map AuthRow.name (List.filter_sublist _)
  exact ⟨hsub.nodup hwf2.1, hsubn.nodup hwf2.2⟩

/-- C7: reconciler idempotence.  For any in-memory user set and any backing
tables satisfying the `auth` schema constraints (unique ids, unique
names), running `save`, then `reload`, then `save` again leaves the
`auth` and `user_privileges` tables exactly as the first `save` left
them: the second `save` changes nothing. -/
theorem save_reload_save_noop (db : AuthDb) (users : List AuthSqlBackendUser)
    (h : WfAuth db) :
    saveTables (saveTables db users) (reload (saveTables db users)) = saveTables db users :=
  saveTables_reload (saveTables db users) (wf_saveTables db users h)

/-- Witness for C7: one stored user with a privilege, saved over by an edited
user set (changed privileges plus a brand-new user). -/
theorem save_reload_save_noop_witness :
    WfAuth { auth := [{ id := 1, name := "alice", password := "pw", last_login := 5 }],
             privs := [(1, "fly")] } ∧
    saveTables
      (saveTables
        { auth := [{ id := 1, name := "alice", password := "pw", last_login := 5 }],
          privs := [(1, "fly")] }
        [{ name := "alice", password := "pw2", last_login := 6, privileges := ["jump"] },
         { name := "bob", password := "x", last_login := 0, privileges := ["fly"] }])
      (reload (saveTables
        { auth := [{ id := 1, name := "alice", password := "pw", last_login := 5 }],
          privs := [(1, "fly")] }
        [{ name := "alice", password := "pw2", last_login := 6, privileges := ["jump"] },
         { name := "bob", password := "x", last_login := 0, privileges := ["fly"] }])) =
    saveTables
      { auth := [{ id := 1, name := "alice", password := "pw", last_login := 5 }],
        privs := [(1, "fly")] }
      [{ name := "alice", password := "pw2", last_login := 6, privileges := ["jump"] },
       { name := "bob", password := "x", last_login := 0, privileges := ["fly"] }] :=
  ⟨by decide,
    save_reload_save_noop
      { auth := [{ id := 1, name := "alice", password := "pw", last_login := 5 }],
        privs := [(1, "fly")] }
      [{ name := "alice", password := "pw2", last_login := 6, privileges := ["jump"] },
       { name := "bob", password := "x", last_login := 0, privileges := ["fly"] }]
      (by decide)⟩

end AuthSqlBackend

end MCWorld
